import Mathlib

set_option autoImplicit false

/-!
Shallow embedding of the vectorized hash-join operator implemented in
`src/execution/operator/join/physical_hash_join.cpp`.

The operator's own orchestration (constructor, `Sink`, `GetGlobalState`,
`GetChunkInternal`, `ProbeHashTable`) is translated directly from the source.
External collaborators that are not part of the four source files (the join
hash table's probe/scan protocol, `LogicalOperator::MapTypes`, the expression
executor, `ConstructEmptyJoinResult`) are modelled from the specification's
collaborator contracts; each such definition carries a doc comment saying so.
-/

/-- Join types referenced by the operator (`JoinType` enum; the enum itself is
not among the source files, its constants are taken from their uses in the
source and the spec). -/
inductive JoinType where
  | INNER
  | LEFT
  | RIGHT
  | OUTER
  | SEMI
  | ANTI
  | MARK
  | SINGLE
deriving DecidableEq

/-- Logical column types, treated as opaque tags. -/
inductive LType where
  | BIGINT
  | INTEGER
  | VARCHAR
deriving DecidableEq, Inhabited

/-- Modelled from the spec: `LogicalOperator::MapTypes` is not among the source
files; per the spec (§3, Right Projection Map) an absent (empty) projection map
means the whole build-side type list is used as payload schema, otherwise the
listed columns are selected in map order. -/
def MapTypes (types : List LType) (projection_map : List Nat) : List LType :=
  if projection_map.length = 0 then types
  else projection_map.map (fun i => types.getD i default)

/-- The fields of `PhysicalHashJoin` that the claims are about. -/
structure PhysicalHashJoin where
  join_type : JoinType
  right_projection_map : List Nat
  condition_types : List LType
  build_types : List LType
deriving DecidableEq

/-- The `PhysicalHashJoin` constructor (source lines 13-30).
`cond_left_types` stands for the `left->return_type` of each join condition,
`right_child_types` for `children[1]->GetTypes()`.  The C++ constructor runs
`assert(left_projection_map.size() == 0)`; the assertion is modelled by
returning `none` when it is violated.  `build_types` is filled from the
projected build-side types except for ANTI, SEMI and MARK joins. -/
def PhysicalHashJoin.mk' (cond_left_types : List LType) (join_type : JoinType)
    (left_projection_map right_projection_map : List Nat)
    (right_child_types : List LType) : Option PhysicalHashJoin :=
  if left_projection_map.length = 0 then
    some { join_type := join_type
           right_projection_map := right_projection_map
           condition_types := cond_left_types
           build_types :=
             if join_type ≠ JoinType.ANTI ∧ join_type ≠ JoinType.SEMI ∧
                join_type ≠ JoinType.MARK then
               MapTypes right_child_types right_projection_map
             else [] }
  else none

/-- The two aggregate functions installed for a correlated MARK join:
`CountStarFun::GetFunction()` and `CountFun::GetFunction()`. -/
inductive AggKind where
  | countStar
  | count
deriving DecidableEq

/-- Modelled from the spec: both counting aggregates return BIGINT. -/
def aggReturnType : AggKind → LType := fun _ => LType.BIGINT

/-- The `correlated_mark_join_info` side structure configured by
`GetGlobalState` (source lines 73-90). -/
structure CorrelatedMarkJoinInfo where
  correlated_types : List LType
  aggregates : List AggKind
  payload_types : List LType
  group_capacity : Nat
deriving DecidableEq

/-- The part of `HashJoinGlobalState` set up by `GetGlobalState` that the
claims are about. -/
structure HashJoinGlobalState where
  ht_join_type : JoinType
  ht_build_types : List LType
  correlated_info : Option CorrelatedMarkJoinInfo
deriving DecidableEq

/-- `PhysicalHashJoin::GetGlobalState` (source lines 58-94): creates the join
hash table, and, for a correlated MARK join (`delim_types` nonempty, join type
MARK, one more condition than correlated columns), configures the correlated
aggregation with a count-star and a count aggregate keyed by `delim_types`. -/
def GetGlobalState (join_type : JoinType) (delim_types : List LType)
    (num_conditions : Nat) (build_types : List LType) : HashJoinGlobalState :=
  { ht_join_type := join_type
    ht_build_types := build_types
    correlated_info :=
      if 0 < delim_types.length ∧ join_type = JoinType.MARK then
        if delim_types.length + 1 = num_conditions then
          some { correlated_types := delim_types
                 aggregates := [AggKind.countStar, AggKind.count]
                 payload_types := [aggReturnType AggKind.countStar,
                                   aggReturnType AggKind.count]
                 group_capacity := 1024 }
        else none
      else none }

/-- A columnar batch: a list of column vectors plus a cardinality
(`SetCardinality`); used for the build side (`Sink`). -/
structure DataChunk where
  data : List (List Nat)
  count : Nat
deriving DecidableEq

/-- A bound expression, as far as the embedding needs it: a function from an
input batch to one output column. -/
abbrev Expression := DataChunk → List Nat

/-- Modelled from the spec: the expression evaluator contract (§6) — it
evaluates the registered expressions against the input, one output column per
expression, preserving the row count. -/
def Execute (exprs : List Expression) (input : DataChunk) : DataChunk :=
  { data := exprs.map (fun e => e input), count := input.count }

/-- `PhysicalHashJoin::Sink` (source lines 108-127): computes the join keys
with the build-side executor, then inserts `(keys, payload)` into the shared
hash table, where the payload is the projected build chunk when a right
projection map is present and the raw input otherwise.  The hash table is
modelled as the list of inserted pairs (the spec's `build` contract, §6); the
function returns only the new hash-table contents — no output batch exists. -/
def Sink (right_projection_map : List Nat) (build_exprs : List Expression)
    (hash_table : List (DataChunk × DataChunk)) (input : DataChunk) :
    List (DataChunk × DataChunk) :=
  if 0 < right_projection_map.length then
    hash_table ++ [(Execute build_exprs input,
      { data := right_projection_map.map (fun i => input.data.getD i [])
        count := input.count })]
  else
    hash_table ++ [(Execute build_exprs input, input)]

/-! ## The probe-side state machine

For `GetChunkInternal`/`ProbeHashTable` the row-level content of a batch is
what matters; a chunk is its list of rows, a row an opaque value. -/

abbrev Row := Nat

/-- A row-level batch (`DataChunk` as seen by the probe pipeline). -/
abbrev Chunk := List Row

/-- Modelled from the spec: a `ScanStructure` is the resumable cursor over one
probe batch's matches; it is represented by the list of the remaining slices
its `Next` calls will deliver. -/
abbrev ScanStructure := List Chunk

/-- Modelled from the spec: `ScanStructure::Next` appends the next slice of
matches to the output chunk and returns a naturally-empty chunk once the probe
batch's matches are exhausted (§6). -/
def ScanStructure.Next (ss : ScanStructure) : Chunk × ScanStructure :=
  match ss with
  | [] => ([], [])
  | c :: rest => (c, rest)

/-- The per-operator data the probe pipeline reads but never writes:
the join type and `size()` of the finalized hash table, the probe executor
(`cond.left` expressions), the hash table's `Probe` (modelled from the spec as
the full slice sequence its scan structure will deliver for given keys), and
`ConstructEmptyJoinResult` (modelled from the spec §4.3: the join-type-specific
result built from a probe chunk when the hash table is empty). -/
structure ProbeParams where
  joinType : JoinType
  htSize : Nat
  probeExec : Chunk → Chunk
  htProbe : Chunk → List Chunk
  emptyJoinResult : Chunk → Chunk

/-- The fields of `PhysicalHashJoinState` that `ProbeHashTable` touches, plus
the probe-side child stream (`children[0]`, modelled as the list of batches it
has yet to produce; fetching from the exhausted stream yields empty chunks). -/
structure ProbeState where
  child_chunk : Chunk
  scan_structure : Option ScanStructure
  childStream : List Chunk
deriving DecidableEq

/-- The whole per-call state of `GetChunkInternal`: the probe substate, the
coalescing cache (`cached_chunk`) and the shared full-outer scan cursor
(`ht_scan_state`, modelled from the spec as the list of unmatched-row slices
the remaining `ScanFullOuter` calls will deliver). -/
structure JoinExecState where
  probe : ProbeState
  cached_chunk : Chunk
  ht_scan_state : List Chunk
deriving DecidableEq

/-- The do-while loop of `PhysicalHashJoin::ProbeHashTable` (source lines
226-242): fetch a probe-side chunk; if the stream is exhausted return empty;
if the hash table is empty return `ConstructEmptyJoinResult` of the chunk;
otherwise compute the keys, probe the hash table and ask the fresh scan
structure for its first slice, looping while that slice is empty. -/
def probeLoopGo (p : ProbeParams) : Option ScanStructure → List Chunk → Chunk × ProbeState
  | scan, [] => ([], { child_chunk := [], scan_structure := scan, childStream := [] })
  | scan, cc :: rest =>
    if cc.length = 0 then
      ([], { child_chunk := cc, scan_structure := scan, childStream := rest })
    else if p.htSize = 0 then
      (p.emptyJoinResult cc,
       { child_chunk := cc, scan_structure := scan, childStream := rest })
    else
      if (ScanStructure.Next (p.htProbe (p.probeExec cc))).1.length = 0 then
        probeLoopGo p (some (ScanStructure.Next (p.htProbe (p.probeExec cc))).2) rest
      else
        ((ScanStructure.Next (p.htProbe (p.probeExec cc))).1,
         { child_chunk := cc
           scan_structure := some (ScanStructure.Next (p.htProbe (p.probeExec cc))).2
           childStream := rest })

/-- `PhysicalHashJoin::ProbeHashTable` (source lines 211-243): if the previous
probe batch still has a live scan structure, resume it; a non-empty slice is
returned as is, an empty one discards the structure; otherwise (or after the
discard) run the probe loop. -/
def ProbeHashTable (p : ProbeParams) (ps : ProbeState) : Chunk × ProbeState :=
  match ps.scan_structure with
  | some ss =>
    if 0 < ps.child_chunk.length then
      if 0 < (ScanStructure.Next ss).1.length then
        ((ScanStructure.Next ss).1, { ps with scan_structure := some (ScanStructure.Next ss).2 })
      else probeLoopGo p none ps.childStream
    else probeLoopGo p (some ss) ps.childStream
  | none => probeLoopGo p none ps.childStream

/-- Number of slices a scan structure can still deliver. -/
def slicesOf : Option ScanStructure → Nat
  | none => 0
  | some ss => ss.length

/-- Upper bound on the probe work one child chunk can cause: its probe's slice
count plus one for the fetch itself. -/
def chunkCost (p : ProbeParams) (cc : Chunk) : Nat :=
  (p.htProbe (p.probeExec cc)).length + 1

/-- Total probe work of the remaining child stream. -/
def streamCost (p : ProbeParams) (stream : List Chunk) : Nat :=
  (stream.map (chunkCost p)).sum

/-- Bound on the number of `ProbeHashTable` steps the probe substate can still
take; strictly decreases whenever `ProbeHashTable` yields a non-empty slice. -/
def probeBound (p : ProbeParams) (ps : ProbeState) : Nat :=
  slicesOf ps.scan_structure + streamCost p ps.childStream + 1

/-- The sequence of non-empty slices repeated `ProbeHashTable` calls deliver
from a probe substate before the first empty result, cut off by fuel. -/
def rawSlicesF (p : ProbeParams) : Nat → ProbeState → List Chunk
  | 0, _ => []
  | f + 1, ps =>
    if (ProbeHashTable p ps).1.length = 0 then []
    else (ProbeHashTable p ps).1 :: rawSlicesF p f (ProbeHashTable p ps).2

/-- The full slice sequence (with sufficient fuel `probeBound`). -/
def rawSlices (p : ProbeParams) (ps : ProbeState) : List Chunk :=
  rawSlicesF p (probeBound p ps) ps

/-- The end-of-probe handling of `GetChunkInternal` (source lines 174-186):
return and clear a non-empty cache; otherwise, for a full OUTER join, let
`ScanFullOuter` advance the shared cursor (empty once exhausted); otherwise
return an empty chunk.  The third component is the (empty) append trace. -/
def endOfProbe (p : ProbeParams) (s : JoinExecState) : Chunk × JoinExecState × List Nat :=
  if 0 < s.cached_chunk.length then
    (s.cached_chunk, { s with cached_chunk := [] }, [])
  else if p.joinType = JoinType.OUTER then
    match s.ht_scan_state with
    | [] => ([], s, [])
    | o :: rest => (o, { s with ht_scan_state := rest }, [])
  else ([], s, [])

/-- The do-while loop of `PhysicalHashJoin::GetChunkInternal` (source lines
172-209), with the small-batch threshold (64 in the source) and
`STANDARD_VECTOR_SIZE` (1024 in the source) as parameters `t` and `V`:
probe; on an empty result run the end-of-probe handling; a result below the
threshold is appended to the cache, which is returned once it holds at least
`V - t` rows and otherwise probing continues; a result at or above the
threshold is returned directly.  The source guards the caching logic by
`#if STANDARD_VECTOR_SIZE >= 128`, which holds for the source's value 1024, so
the caching branch is modelled as compiled in.  Fuel-cut (`none` = out of
fuel; `probeBound` fuel always suffices, see `GetChunkInternal_isSome`).  The
third result component is a ghost trace recording the cache's row count right
after each append. -/
def GetChunkLoopF (p : ProbeParams) (t V : Nat) :
    Nat → JoinExecState → Option (Chunk × JoinExecState × List Nat)
  | 0, _ => none
  | f + 1, s =>
    if (ProbeHashTable p s.probe).1.length = 0 then
      some (endOfProbe p { s with probe := (ProbeHashTable p s.probe).2 })
    else if (ProbeHashTable p s.probe).1.length < t then
      if V - t ≤ (s.cached_chunk ++ (ProbeHashTable p s.probe).1).length then
        some (s.cached_chunk ++ (ProbeHashTable p s.probe).1,
              { s with probe := (ProbeHashTable p s.probe).2, cached_chunk := [] },
              [(s.cached_chunk ++ (ProbeHashTable p s.probe).1).length])
      else
        match GetChunkLoopF p t V f
            { s with probe := (ProbeHashTable p s.probe).2
                     cached_chunk := s.cached_chunk ++ (ProbeHashTable p s.probe).1 } with
        | none => none
        | some (c, s', tr) =>
          some (c, s', (s.cached_chunk ++ (ProbeHashTable p s.probe).1).length :: tr)
    else
      some ((ProbeHashTable p s.probe).1, { s with probe := (ProbeHashTable p s.probe).2 }, [])

/-- `PhysicalHashJoin::GetChunkInternal` (source lines 164-209): the empty
hash table shortcut for INNER and SEMI joins, then the probe/caching loop. -/
def GetChunkInternal (p : ProbeParams) (t V : Nat) (s : JoinExecState) :
    Option (Chunk × JoinExecState × List Nat) :=
  if p.htSize = 0 ∧ (p.joinType = JoinType.INNER ∨ p.joinType = JoinType.SEMI) then
    some ([], s, [])
  else GetChunkLoopF p t V (probeBound p s.probe) s

/-- Drive the operator as its caller does: call `GetChunkInternal` repeatedly,
collecting the returned batches (and the ghost append traces), until a call
returns an empty batch.  Fuel-cut by the call count. -/
def DriveF (p : ProbeParams) (t V : Nat) :
    Nat → JoinExecState → Option (List Chunk × JoinExecState × List Nat)
  | 0, _ => none
  | n + 1, s =>
    match GetChunkInternal p t V s with
    | none => none
    | some (c, s', tr) =>
      if c.length = 0 then some ([], s', tr)
      else
        match DriveF p t V n s' with
        | none => none
        | some (outs, sEnd, tr') => some (c :: outs, sEnd, tr ++ tr')

/-- The output-batch coalescing policy as the specification describes it
(§4.3): a produced slice smaller than the threshold `t` is appended to the
cache and probing continues; the cache is flushed once it reaches `V - t`
rows; a slice of at least `t` rows is returned immediately; at probe
exhaustion a non-empty cache is returned. -/
def coalesce (t V : Nat) (cache : Chunk) : List Chunk → List Chunk
  | [] => if cache.length = 0 then [] else [cache]
  | c :: rest =>
    if c.length < t then
      if V - t ≤ (cache ++ c).length then (cache ++ c) :: coalesce t V [] rest
      else coalesce t V (cache ++ c) rest
    else c :: coalesce t V cache rest

/-- The full-outer slices still owed by the shared cursor (empty for any other
join type). -/
def outerPart (p : ProbeParams) (s : JoinExecState) : List Chunk :=
  if p.joinType = JoinType.OUTER then s.ht_scan_state else []


/-! ## Concrete operator instances used by witnesses and counterexamples -/

/-- An INNER-join instance with an empty hash table (zero build rows sunk). -/
def pC1 : ProbeParams :=
  { joinType := JoinType.INNER, htSize := 0, probeExec := fun c => c,
    htProbe := fun _ => [], emptyJoinResult := fun _ => [] }

/-- A fresh probe state whose child still holds two batches. -/
def sC1 : JoinExecState :=
  { probe := { child_chunk := [], scan_structure := none, childStream := [[1, 2], [3]] },
    cached_chunk := [], ht_scan_state := [] }

/-- An INNER-join instance whose single probe batch matches as a 1-row slice
followed by a 64-row slice. -/
def pC2 : ProbeParams :=
  { joinType := JoinType.INNER, htSize := 1, probeExec := fun c => c,
    htProbe := fun _ => [[1], List.replicate 64 2], emptyJoinResult := fun c => c }

/-- A fresh probe state with one probe-side batch. -/
def sC2 : JoinExecState :=
  { probe := { child_chunk := [], scan_structure := none, childStream := [[0]] },
    cached_chunk := [], ht_scan_state := [] }

/-- An INNER-join instance used to exercise the resume path. -/
def pC4 : ProbeParams :=
  { joinType := JoinType.INNER, htSize := 1, probeExec := fun c => c,
    htProbe := fun _ => [], emptyJoinResult := fun c => c }

/-- A state carrying a live scan structure with one 1-row slice left for the
current probe batch [9], and a 1-row cache. -/
def sC4 : JoinExecState :=
  { probe := { child_chunk := [9], scan_structure := some [[5]], childStream := [] },
    cached_chunk := [7], ht_scan_state := [] }

/-- An OUTER-join instance with exhausted probe side. -/
def pC5 : ProbeParams :=
  { joinType := JoinType.OUTER, htSize := 1, probeExec := fun c => c,
    htProbe := fun _ => [], emptyJoinResult := fun c => c }

/-- An exhausted probe state with a buffered cache and one full-outer slice owed. -/
def sC5 : JoinExecState :=
  { probe := { child_chunk := [], scan_structure := none, childStream := [] },
    cached_chunk := [7], ht_scan_state := [[3]] }

/-- An INNER-join instance whose probe batch has exactly one full 64-row slice. -/
def p7 : ProbeParams :=
  { joinType := JoinType.INNER, htSize := 1, probeExec := fun c => c,
    htProbe := fun _ => [List.replicate 64 9], emptyJoinResult := fun c => c }

/-- A fresh probe state with one probe-side batch. -/
def s7 : JoinExecState :=
  { probe := { child_chunk := [], scan_structure := none, childStream := [[0]] },
    cached_chunk := [], ht_scan_state := [] }

/-! ## Structural lemmas about the probe loop -/

theorem streamCost_cons (p : ProbeParams) (cc : Chunk) (rest : List Chunk) :
    streamCost p (cc :: rest) = chunkCost p cc + streamCost p rest := by
  simp [streamCost]

theorem Next_snd_le (ss : ScanStructure) :
    (ScanStructure.Next ss).2.length ≤ ss.length := by
  cases ss <;> simp [ScanStructure.Next]

theorem Next_snd_lt (ss : ScanStructure) (h : 0 < (ScanStructure.Next ss).1.length) :
    (ScanStructure.Next ss).2.length < ss.length := by
  cases ss with
  | nil => simp [ScanStructure.Next] at h
  | cons c rest => simp [ScanStructure.Next]

theorem probeLoopGo_mem (p : ProbeParams) (scan : Option ScanStructure) (stream : List Chunk) :
    ∀ ch ∈ (probeLoopGo p scan stream).2.childStream, ch ∈ stream := by
  induction stream generalizing scan with
  | nil => simp [probeLoopGo]
  | cons cc rest ih =>
    intro ch hch
    by_cases h1 : cc.length = 0
    · simp [probeLoopGo, h1] at hch
      exact List.mem_cons_of_mem _ hch
    · by_cases h2 : p.htSize = 0
      · simp [probeLoopGo, h1, h2] at hch
        exact List.mem_cons_of_mem _ hch
      · by_cases h3 : (ScanStructure.Next (p.htProbe (p.probeExec cc))).1.length = 0
        · simp only [probeLoopGo, if_neg h1, if_neg h2, if_pos h3] at hch
          exact List.mem_cons_of_mem _ (ih _ ch hch)
        · simp [probeLoopGo, h1, h2, h3] at hch
          exact List.mem_cons_of_mem _ hch

theorem probeLoopGo_bound (p : ProbeParams) (scan : Option ScanStructure) (stream : List Chunk)
    (h : (probeLoopGo p scan stream).1 ≠ []) :
    probeBound p (probeLoopGo p scan stream).2 < slicesOf scan + streamCost p stream + 1 := by
  induction stream generalizing scan with
  | nil => simp [probeLoopGo] at h
  | cons cc rest ih =>
    by_cases h1 : cc.length = 0
    · simp [probeLoopGo, h1] at h
    · by_cases h2 : p.htSize = 0
      · have hcost : 0 < chunkCost p cc := Nat.succ_pos _
        simp only [probeLoopGo, if_neg h1, if_pos h2]
        simp only [probeBound, streamCost_cons]
        omega
      · by_cases h3 : (ScanStructure.Next (p.htProbe (p.probeExec cc))).1.length = 0
        · simp only [probeLoopGo, if_neg h1, if_neg h2, if_pos h3] at h ⊢
          have hrec := ih (some (ScanStructure.Next (p.htProbe (p.probeExec cc))).2) h
          have hle := Next_snd_le (p.htProbe (p.probeExec cc))
          simp only [slicesOf] at hrec
          simp only [streamCost_cons, chunkCost]
          omega
        · simp only [probeLoopGo, if_neg h1, if_neg h2, if_neg h3]
          have hlt := Next_snd_lt (p.htProbe (p.probeExec cc)) (Nat.pos_of_ne_zero h3)
          simp only [probeBound, slicesOf, streamCost_cons, chunkCost]
          omega

theorem probeLoopGo_empty (p : ProbeParams)
    (hW4 : p.htSize = 0 → ∀ cc : Chunk, cc ≠ [] → p.emptyJoinResult cc ≠ []) :
    ∀ (stream : List Chunk) (scan : Option ScanStructure),
      (∀ ch ∈ stream, ch ≠ []) →
      (probeLoopGo p scan stream).1 = [] →
      (probeLoopGo p scan stream).2.childStream = [] ∧
        (probeLoopGo p scan stream).2.child_chunk = [] := by
  intro stream
  induction stream with
  | nil =>
    intro scan _ _
    simp [probeLoopGo]
  | cons cc rest ih =>
    intro scan hW2 h
    have hcc : cc ≠ [] := hW2 cc (List.mem_cons_self _ _)
    have h1 : ¬cc.length = 0 := fun hz => hcc (List.length_eq_zero.mp hz)
    by_cases h2 : p.htSize = 0
    · simp only [probeLoopGo, if_neg h1, if_pos h2] at h
      exact absurd h (hW4 h2 cc hcc)
    · by_cases h3 : (ScanStructure.Next (p.htProbe (p.probeExec cc))).1.length = 0
      · simp only [probeLoopGo, if_neg h1, if_neg h2, if_pos h3] at h ⊢
        exact ih _ (fun ch hch => hW2 ch (List.mem_cons_of_mem _ hch)) h
      · simp only [probeLoopGo, if_neg h1, if_neg h2, if_neg h3] at h
        exact absurd (congrArg List.length h) (by simpa using h3)

theorem ProbeHashTable_mem (p : ProbeParams) (ps : ProbeState) :
    ∀ ch ∈ (ProbeHashTable p ps).2.childStream, ch ∈ ps.childStream := by
  unfold ProbeHashTable
  cases hs : ps.scan_structure with
  | none => exact probeLoopGo_mem p none ps.childStream
  | some ss =>
    by_cases h1 : 0 < ps.child_chunk.length
    · by_cases h2 : 0 < (ScanStructure.Next ss).1.length
      · simp [h1, h2]
      · simp only [if_pos h1, if_neg h2]
        exact probeLoopGo_mem p none ps.childStream
    · simp only [if_neg h1]
      exact probeLoopGo_mem p (some ss) ps.childStream

theorem ProbeHashTable_bound (p : ProbeParams) (ps : ProbeState)
    (h : (ProbeHashTable p ps).1 ≠ []) :
    probeBound p (ProbeHashTable p ps).2 < probeBound p ps := by
  unfold ProbeHashTable at h ⊢
  cases hs : ps.scan_structure with
  | none =>
    simp only [hs] at h ⊢
    have := probeLoopGo_bound p none ps.childStream h
    simp only [probeBound, hs, slicesOf] at *
    omega
  | some ss =>
    simp only [hs] at h ⊢
    by_cases h1 : 0 < ps.child_chunk.length
    · by_cases h2 : 0 < (ScanStructure.Next ss).1.length
      · simp only [if_pos h1, if_pos h2] at h ⊢
        have hlt := Next_snd_lt ss h2
        simp only [probeBound, hs, slicesOf]
        omega
      · simp only [if_pos h1, if_neg h2] at h ⊢
        have := probeLoopGo_bound p none ps.childStream h
        simp only [probeBound, hs, slicesOf] at *
        omega
    · simp only [if_neg h1] at h ⊢
      have := probeLoopGo_bound p (some ss) ps.childStream h
      simp only [probeBound, hs, slicesOf] at *
      omega

theorem ProbeHashTable_empty (p : ProbeParams) (ps : ProbeState)
    (hW2 : ∀ ch ∈ ps.childStream, ch ≠ [])
    (hW4 : p.htSize = 0 → ∀ cc : Chunk, cc ≠ [] → p.emptyJoinResult cc ≠ [])
    (h : (ProbeHashTable p ps).1 = []) :
    (ProbeHashTable p ps).2.childStream = [] ∧ (ProbeHashTable p ps).2.child_chunk = [] := by
  unfold ProbeHashTable at h ⊢
  cases hs : ps.scan_structure with
  | none =>
    simp only [hs] at h ⊢
    exact probeLoopGo_empty p hW4 ps.childStream none hW2 h
  | some ss =>
    simp only [hs] at h ⊢
    by_cases h1 : 0 < ps.child_chunk.length
    · by_cases h2 : 0 < (ScanStructure.Next ss).1.length
      · simp only [if_pos h1, if_pos h2] at h
        rw [h] at h2
        simp at h2
      · simp only [if_pos h1, if_neg h2] at h ⊢
        exact probeLoopGo_empty p hW4 ps.childStream none hW2 h
    · simp only [if_neg h1] at h ⊢
      exact probeLoopGo_empty p hW4 ps.childStream (some ss) hW2 h

theorem ProbeHashTable_exhausted (p : ProbeParams) (scan : Option ScanStructure) :
    ProbeHashTable p { child_chunk := [], scan_structure := scan, childStream := [] } =
      ([], { child_chunk := [], scan_structure := scan, childStream := [] }) := by
  cases scan <;> rfl

/-! ## The raw slice stream -/

theorem rawSlicesF_congr (p : ProbeParams) :
    ∀ f g : Nat, ∀ ps : ProbeState, probeBound p ps ≤ f → probeBound p ps ≤ g →
      rawSlicesF p f ps = rawSlicesF p g ps := by
  intro f
  induction f with
  | zero =>
    intro g ps hf _
    simp only [probeBound] at hf
    omega
  | succ f ih =>
    intro g ps hf hg
    cases g with
    | zero =>
      simp only [probeBound] at hg
      omega
    | succ g =>
      simp only [rawSlicesF]
      by_cases h : (ProbeHashTable p ps).1.length = 0
      · simp [h]
      · simp only [if_neg h]
        have hne : (ProbeHashTable p ps).1 ≠ [] := by
          intro hz
          exact h (by simp [hz])
        have hlt := ProbeHashTable_bound p ps hne
        exact congrArg _ (ih g _ (by omega) (by omega))

theorem rawSlices_eq_nil (p : ProbeParams) (ps : ProbeState)
    (h : (ProbeHashTable p ps).1 = []) : rawSlices p ps = [] := by
  have hb : probeBound p ps = slicesOf ps.scan_structure + streamCost p ps.childStream + 1 := rfl
  rw [rawSlices, hb]
  simp [rawSlicesF, h]

theorem rawSlices_cons (p : ProbeParams) (ps : ProbeState)
    (h : (ProbeHashTable p ps).1 ≠ []) :
    rawSlices p ps = (ProbeHashTable p ps).1 :: rawSlices p (ProbeHashTable p ps).2 := by
  have hb : probeBound p ps = slicesOf ps.scan_structure + streamCost p ps.childStream + 1 := rfl
  have hlt := ProbeHashTable_bound p ps h
  rw [rawSlices, hb]
  simp only [rawSlicesF]
  rw [if_neg (by simpa using fun hz => h (List.length_eq_zero.mp hz))]
  exact congrArg _ (rawSlicesF_congr p _ _ _ (by omega) (le_refl _))

theorem rawSlices_exhausted (p : ProbeParams) (scan : Option ScanStructure) :
    rawSlices p { child_chunk := [], scan_structure := scan, childStream := [] } = [] :=
  rawSlices_eq_nil p _ (by rw [ProbeHashTable_exhausted])

/-! ## Per-call accounting: one `GetChunkLoopF` call against the coalescing policy -/

theorem getChunkLoopF_spec (p : ProbeParams) (t V : Nat)
    (hW4 : p.htSize = 0 → ∀ cc : Chunk, cc ≠ [] → p.emptyJoinResult cc ≠ []) :
    ∀ (f : Nat) (s : JoinExecState) (c : Chunk) (s' : JoinExecState) (tr : List Nat),
      (∀ ch ∈ s.probe.childStream, ch ≠ []) →
      (∀ o ∈ s.ht_scan_state, o ≠ []) →
      GetChunkLoopF p t V f s = some (c, s', tr) →
      ((c = [] → s.cached_chunk = [] ∧ rawSlices p s.probe = [] ∧
          (p.joinType = JoinType.OUTER → s.ht_scan_state = [])) ∧
       (c ≠ [] → c :: (coalesce t V s'.cached_chunk (rawSlices p s'.probe) ++ outerPart p s') =
          coalesce t V s.cached_chunk (rawSlices p s.probe) ++ outerPart p s) ∧
       (∀ ch ∈ s'.probe.childStream, ch ≠ []) ∧
       (∀ o ∈ s'.ht_scan_state, o ≠ [])) := by
  intro f
  induction f with
  | zero =>
    intro s c s' tr _ _ h
    simp [GetChunkLoopF] at h
  | succ f ih =>
    intro s c s' tr hW2 hW3 h
    obtain ⟨ps, cache, hts⟩ := s
    simp only at hW2 hW3
    simp only [GetChunkLoopF] at h
    by_cases hA : (ProbeHashTable p ps).1.length = 0
    · -- probe yielded nothing: end-of-probe handling
      rw [if_pos hA] at h
      have hAe : (ProbeHashTable p ps).1 = [] := List.length_eq_zero.mp hA
      have hraw : rawSlices p ps = [] := rawSlices_eq_nil p _ hAe
      have hPE := ProbeHashTable_empty p ps hW2 hW4 hAe
      have hraw2 : rawSlices p (ProbeHashTable p ps).2 = [] := by
        have hx : (ProbeHashTable p ps).2 =
            { child_chunk := [],
              scan_structure := (ProbeHashTable p ps).2.scan_structure,
              childStream := [] } := by
          obtain ⟨e1, e2⟩ := hPE
          cases hps : (ProbeHashTable p ps).2
          rw [hps] at e1 e2
          simp_all
        rw [hx, rawSlices_exhausted]
      by_cases hc : 0 < cache.length
      · -- non-empty cache is returned and cleared
        simp only [endOfProbe, if_pos hc, Option.some_inj, Prod.mk.injEq] at h
        obtain ⟨rfl, rfl, rfl⟩ := h
        have hcne : cache ≠ [] := by
          intro hz
          rw [hz] at hc
          simp at hc
        refine ⟨fun hz => absurd hz hcne, ?_, ?_, hW3⟩
        · intro _
          simp [hraw, hraw2, coalesce, outerPart, hcne]
        · intro ch hch
          simp only [hPE.1] at hch
          cases hch
      · rw [endOfProbe] at h
        rw [if_neg (by simpa using hc)] at h
        have hcache : cache = [] := by
          rw [← List.length_eq_zero]
          omega
        by_cases hOUT : p.joinType = JoinType.OUTER
        · rw [if_pos hOUT] at h
          cases hsc : hts with
          | nil =>
            rw [hsc] at h
            simp only [Option.some_inj, Prod.mk.injEq] at h
            obtain ⟨rfl, rfl, rfl⟩ := h
            refine ⟨fun _ => ⟨hcache, hraw, fun _ => rfl⟩, ?_, ?_, ?_⟩
            · intro hne
              exact absurd rfl hne
            · intro ch hch
              simp only [hPE.1] at hch
              cases hch
            · intro o ho
              cases ho
          | cons o rest =>
            rw [hsc] at h
            simp only [Option.some_inj, Prod.mk.injEq] at h
            obtain ⟨rfl, rfl, rfl⟩ := h
            have ho : o ≠ [] := hW3 o (by rw [hsc]; exact List.mem_cons_self _ _)
            refine ⟨fun hc0 => absurd hc0 ho, ?_, ?_, ?_⟩
            · intro _
              simp [hcache, hraw, hraw2, coalesce, outerPart, hOUT, hsc]
            · intro ch hch
              simp only [hPE.1] at hch
              cases hch
            · intro o2 ho2
              exact hW3 o2 (by rw [hsc]; exact List.mem_cons_of_mem _ ho2)
        · rw [if_neg hOUT] at h
          simp only [Option.some_inj, Prod.mk.injEq] at h
          obtain ⟨rfl, rfl, rfl⟩ := h
          refine ⟨fun _ => ⟨hcache, hraw, fun hO => absurd hO hOUT⟩, ?_, ?_, hW3⟩
          · intro hne
            exact absurd rfl hne
          · intro ch hch
            simp only [hPE.1] at hch
            cases hch
    · -- probe yielded a non-empty slice
      rw [if_neg hA] at h
      have hne : (ProbeHashTable p ps).1 ≠ [] := fun hz => hA (by simp [hz])
      have hcons := rawSlices_cons p ps hne
      have hW2n : ∀ ch ∈ (ProbeHashTable p ps).2.childStream, ch ≠ [] :=
        fun ch hch => hW2 ch (ProbeHashTable_mem p ps ch hch)
      by_cases hB : (ProbeHashTable p ps).1.length < t
      · rw [if_pos hB] at h
        by_cases hC : V - t ≤ (cache ++ (ProbeHashTable p ps).1).length
        · -- small slice appended; cache reached capacity and is flushed
          rw [if_pos hC] at h
          simp only [Option.some_inj, Prod.mk.injEq] at h
          obtain ⟨rfl, rfl, rfl⟩ := h
          refine ⟨?_, ?_, hW2n, hW3⟩
          · intro hc0
            exact (hne (List.append_eq_nil.mp hc0).2).elim
          · intro _
            rw [hcons]
            simp only [coalesce, if_pos hB, if_pos hC, outerPart]
            simp
        · -- small slice appended; cache still below capacity: probe again
          rw [if_neg hC] at h
          cases hrec : GetChunkLoopF p t V f
              { probe := (ProbeHashTable p ps).2,
                cached_chunk := cache ++ (ProbeHashTable p ps).1,
                ht_scan_state := hts } with
          | none =>
            rw [hrec] at h
            simp at h
          | some trip =>
            obtain ⟨c0, s'0, tr0⟩ := trip
            rw [hrec] at h
            simp only [Option.some_inj, Prod.mk.injEq] at h
            obtain ⟨rfl, rfl, rfl⟩ := h
            have IH := ih _ c0 s'0 tr0 hW2n hW3 hrec
            have hc0 : c0 ≠ [] := by
              intro hz
              have := (IH.1 hz).1
              simp only at this
              exact hne (List.append_eq_nil.mp this).2
            refine ⟨fun hz => absurd hz hc0, ?_, IH.2.2.1, IH.2.2.2⟩
            intro _
            have heq := IH.2.1 hc0
            rw [hcons]
            simp only [coalesce, if_pos hB, if_neg hC, outerPart] at heq ⊢
            simpa using heq
      · -- slice at or above the threshold: returned immediately
        rw [if_neg hB] at h
        simp only [Option.some_inj, Prod.mk.injEq] at h
        obtain ⟨rfl, rfl, rfl⟩ := h
        refine ⟨fun hz => absurd hz hne, ?_, hW2n, hW3⟩
        intro _
        rw [hcons]
        simp [coalesce, hB, outerPart]

/-! ## Whole-run correspondence and cache bounds -/

theorem driveF_coalesce (p : ProbeParams) (t V : Nat)
    (hW4 : p.htSize = 0 → ∀ cc : Chunk, cc ≠ [] → p.emptyJoinResult cc ≠ [])
    (hns : ¬(p.htSize = 0 ∧ (p.joinType = JoinType.INNER ∨ p.joinType = JoinType.SEMI))) :
    ∀ (n : Nat) (s : JoinExecState) (outs : List Chunk) (sEnd : JoinExecState) (tr : List Nat),
      (∀ ch ∈ s.probe.childStream, ch ≠ []) →
      (∀ o ∈ s.ht_scan_state, o ≠ []) →
      DriveF p t V n s = some (outs, sEnd, tr) →
      outs = coalesce t V s.cached_chunk (rawSlices p s.probe) ++ outerPart p s := by
  intro n
  induction n with
  | zero =>
    intro s outs sEnd tr _ _ h
    simp [DriveF] at h
  | succ n ih =>
    intro s outs sEnd tr hW2 hW3 h
    cases hcall : GetChunkInternal p t V s with
    | none =>
      simp only [DriveF, hcall] at h
      exact Option.noConfusion h
    | some trip =>
      obtain ⟨c, s1, tr1⟩ := trip
      simp only [DriveF, hcall] at h
      have hcall2 : GetChunkLoopF p t V (probeBound p s.probe) s = some (c, s1, tr1) := by
        rw [show GetChunkLoopF p t V (probeBound p s.probe) s = GetChunkInternal p t V s from
          by simp [GetChunkInternal, hns]]
        exact hcall
      have SP := getChunkLoopF_spec p t V hW4 _ s c s1 tr1 hW2 hW3 hcall2
      by_cases hce : c.length = 0
      · rw [if_pos hce] at h
        simp only [Option.some_inj, Prod.mk.injEq] at h
        obtain ⟨rfl, rfl, rfl⟩ := h
        have hfacts := SP.1 (List.length_eq_zero.mp hce)
        rw [hfacts.1, hfacts.2.1]
        by_cases hOUT : p.joinType = JoinType.OUTER
        · simp [coalesce, outerPart, hOUT, hfacts.2.2 hOUT]
        · simp [coalesce, outerPart, hOUT]
      · rw [if_neg hce] at h
        cases hrec : DriveF p t V n s1 with
        | none =>
          simp only [hrec] at h
          exact Option.noConfusion h
        | some trip2 =>
          obtain ⟨outs0, sEnd0, tr'⟩ := trip2
          simp only [hrec, Option.some_inj, Prod.mk.injEq] at h
          obtain ⟨rfl, rfl, rfl⟩ := h
          have hcne : c ≠ [] := fun hz => hce (by simp [hz])
          have heq := SP.2.1 hcne
          have hrec2 := ih s1 outs0 sEnd0 tr' SP.2.2.1 SP.2.2.2 hrec
          rw [hrec2]
          exact heq

theorem getChunkLoopF_inv (p : ProbeParams) (t V : Nat) :
    ∀ (f : Nat) (s : JoinExecState) (c : Chunk) (s' : JoinExecState) (tr : List Nat),
      s.cached_chunk.length < V - t →
      GetChunkLoopF p t V f s = some (c, s', tr) →
      (∀ x ∈ tr, x < V) ∧ s'.cached_chunk.length < V - t := by
  intro f
  induction f with
  | zero =>
    intro s c s' tr _ h
    simp [GetChunkLoopF] at h
  | succ f ih =>
    intro s c s' tr hinv h
    obtain ⟨ps, cache, hts⟩ := s
    simp only at hinv
    simp only [GetChunkLoopF] at h
    by_cases hA : (ProbeHashTable p ps).1.length = 0
    · rw [if_pos hA] at h
      rw [endOfProbe] at h
      by_cases hc : 0 < cache.length
      · rw [if_pos hc] at h
        simp only [Option.some_inj, Prod.mk.injEq] at h
        obtain ⟨rfl, rfl, rfl⟩ := h
        refine ⟨by simp, ?_⟩
        simp only [List.length_nil]
        omega
      · rw [if_neg (by simpa using hc)] at h
        by_cases hOUT : p.joinType = JoinType.OUTER
        · rw [if_pos hOUT] at h
          cases hsc : hts with
          | nil =>
            rw [hsc] at h
            simp only [Option.some_inj, Prod.mk.injEq] at h
            obtain ⟨rfl, rfl, rfl⟩ := h
            exact ⟨by simp, by simpa using hinv⟩
          | cons o rest =>
            rw [hsc] at h
            simp only [Option.some_inj, Prod.mk.injEq] at h
            obtain ⟨rfl, rfl, rfl⟩ := h
            exact ⟨by simp, by simpa using hinv⟩
        · rw [if_neg hOUT] at h
          simp only [Option.some_inj, Prod.mk.injEq] at h
          obtain ⟨rfl, rfl, rfl⟩ := h
          exact ⟨by simp, by simpa using hinv⟩
    · rw [if_neg hA] at h
      by_cases hB : (ProbeHashTable p ps).1.length < t
      · rw [if_pos hB] at h
        by_cases hC : V - t ≤ (cache ++ (ProbeHashTable p ps).1).length
        · rw [if_pos hC] at h
          simp only [Option.some_inj, Prod.mk.injEq] at h
          obtain ⟨rfl, rfl, rfl⟩ := h
          constructor
          · intro x hx
            simp only [List.mem_singleton] at hx
            subst hx
            simp only [List.length_append]
            omega
          · simp only [List.length_nil]
            omega
        · rw [if_neg hC] at h
          cases hrec : GetChunkLoopF p t V f
              { probe := (ProbeHashTable p ps).2,
                cached_chunk := cache ++ (ProbeHashTable p ps).1,
                ht_scan_state := hts } with
          | none =>
            rw [hrec] at h
            simp at h
          | some trip =>
            obtain ⟨c0, s'0, tr0⟩ := trip
            rw [hrec] at h
            simp only [Option.some_inj, Prod.mk.injEq] at h
            obtain ⟨rfl, rfl, rfl⟩ := h
            have hinv2 : (cache ++ (ProbeHashTable p ps).1).length < V - t :=
              Nat.lt_of_not_le hC
            have IH := ih _ c0 s'0 tr0 hinv2 hrec
            constructor
            · intro x hx
              simp only [List.mem_cons] at hx
              rcases hx with hx | hx
              · subst hx
                simp only [List.length_append] at hinv2 ⊢
                omega
              · exact IH.1 x hx
            · exact IH.2
      · rw [if_neg hB] at h
        simp only [Option.some_inj, Prod.mk.injEq] at h
        obtain ⟨rfl, rfl, rfl⟩ := h
        exact ⟨by simp, by simpa using hinv⟩

theorem driveF_inv (p : ProbeParams) (t V : Nat) :
    ∀ (n : Nat) (s : JoinExecState) (outs : List Chunk) (sEnd : JoinExecState) (tr : List Nat),
      s.cached_chunk.length < V - t →
      DriveF p t V n s = some (outs, sEnd, tr) →
      (∀ x ∈ tr, x < V) ∧ sEnd.cached_chunk.length < V - t := by
  intro n
  induction n with
  | zero =>
    intro s outs sEnd tr _ h
    simp [DriveF] at h
  | succ n ih =>
    intro s outs sEnd tr hinv h
    cases hcall : GetChunkInternal p t V s with
    | none =>
      simp only [DriveF, hcall] at h
      exact Option.noConfusion h
    | some trip =>
      obtain ⟨c, s1, tr1⟩ := trip
      simp only [DriveF, hcall] at h
      have C1 : (∀ x ∈ tr1, x < V) ∧ s1.cached_chunk.length < V - t := by
        by_cases hsc : p.htSize = 0 ∧ (p.joinType = JoinType.INNER ∨ p.joinType = JoinType.SEMI)
        · rw [GetChunkInternal, if_pos hsc] at hcall
          simp only [Option.some_inj, Prod.mk.injEq] at hcall
          obtain ⟨rfl, rfl, rfl⟩ := hcall
          exact ⟨by simp, hinv⟩
        · rw [GetChunkInternal, if_neg hsc] at hcall
          exact getChunkLoopF_inv p t V _ s c s1 tr1 hinv hcall
      by_cases hce : c.length = 0
      · rw [if_pos hce] at h
        simp only [Option.some_inj, Prod.mk.injEq] at h
        obtain ⟨rfl, rfl, rfl⟩ := h
        exact C1
      · rw [if_neg hce] at h
        cases hrec : DriveF p t V n s1 with
        | none =>
          simp only [hrec] at h
          exact Option.noConfusion h
        | some trip2 =>
          obtain ⟨outs0, sEnd0, tr'⟩ := trip2
          simp only [hrec, Option.some_inj, Prod.mk.injEq] at h
          obtain ⟨rfl, rfl, rfl⟩ := h
          have IH := ih s1 outs0 sEnd0 tr' C1.2 hrec
          refine ⟨?_, IH.2⟩
          intro x hx
          rcases List.mem_append.mp hx with hx | hx
          · exact C1.1 x hx
          · exact IH.1 x hx

theorem coalesce_flatten_perm (t V : Nat) :
    ∀ (l : List Chunk) (cache : Chunk),
      (coalesce t V cache l).flatten.Perm (cache ++ l.flatten) := by
  intro l
  induction l with
  | nil =>
    intro cache
    by_cases hc : cache.length = 0
    · simp [coalesce, hc, List.length_eq_zero.mp hc]
    · simp [coalesce, hc]
  | cons c rest ih =>
    intro cache
    by_cases h1 : c.length < t
    · by_cases h2 : V - t ≤ (cache ++ c).length
      · simp only [coalesce, if_pos h1, if_pos h2, List.flatten_cons]
        calc ((cache ++ c) ++ (coalesce t V [] rest).flatten).Perm
              ((cache ++ c) ++ ([] ++ rest.flatten)) := List.Perm.append_left _ (ih [])
          _ = cache ++ (c :: rest).flatten := by simp
      · simp only [coalesce, if_pos h1, if_neg h2]
        calc ((coalesce t V (cache ++ c) rest).flatten).Perm
              ((cache ++ c) ++ rest.flatten) := ih _
          _ = cache ++ (c :: rest).flatten := by simp
    · simp only [coalesce, if_neg h1, List.flatten_cons]
      have step1 : (c ++ (coalesce t V cache rest).flatten).Perm (c ++ (cache ++ rest.flatten)) :=
        List.Perm.append_left _ (ih cache)
      have step2 : (c ++ (cache ++ rest.flatten)).Perm (cache ++ (c ++ rest.flatten)) := by
        rw [← List.append_assoc, ← List.append_assoc]
        exact List.Perm.append_right _ List.perm_append_comm
      exact step1.trans step2


/-- `probeBound` fuel suffices: the loop never runs out of fuel. -/
theorem getChunkLoopF_isSome (p : ProbeParams) (t V : Nat) :
    ∀ (f : Nat) (s : JoinExecState), probeBound p s.probe ≤ f →
      (GetChunkLoopF p t V f s).isSome := by
  intro f
  induction f with
  | zero =>
    intro s hf
    simp only [probeBound] at hf
    omega
  | succ f ih =>
    intro s hf
    simp only [GetChunkLoopF]
    by_cases hA : (ProbeHashTable p s.probe).1.length = 0
    · rw [if_pos hA]
      simp
    · rw [if_neg hA]
      by_cases hB : (ProbeHashTable p s.probe).1.length < t
      · rw [if_pos hB]
        by_cases hC : V - t ≤ (s.cached_chunk ++ (ProbeHashTable p s.probe).1).length
        · rw [if_pos hC]
          simp
        · rw [if_neg hC]
          have hne : (ProbeHashTable p s.probe).1 ≠ [] := fun hz => hA (by simp [hz])
          have hlt := ProbeHashTable_bound p s.probe hne
          have hrec := ih { probe := (ProbeHashTable p s.probe).2,
                            cached_chunk := s.cached_chunk ++ (ProbeHashTable p s.probe).1,
                            ht_scan_state := s.ht_scan_state } (by simp only; omega)
          cases hm : GetChunkLoopF p t V f
              { probe := (ProbeHashTable p s.probe).2,
                cached_chunk := s.cached_chunk ++ (ProbeHashTable p s.probe).1,
                ht_scan_state := s.ht_scan_state } with
          | none =>
            rw [hm] at hrec
            simp at hrec
          | some trip =>
            obtain ⟨c, s2, tr⟩ := trip
            simp
      · rw [if_neg hB]
        simp

/-- `GetChunkInternal` is total: the internal fuel never runs out, so the
`Option` in its type is an artifact of the fuel encoding, not of the code. -/
theorem GetChunkInternal_isSome (p : ProbeParams) (t V : Nat) (s : JoinExecState) :
    (GetChunkInternal p t V s).isSome := by
  rw [GetChunkInternal]
  by_cases hns : p.htSize = 0 ∧ (p.joinType = JoinType.INNER ∨ p.joinType = JoinType.SEMI)
  · rw [if_pos hns]
    simp
  · rw [if_neg hns]
    exact getChunkLoopF_isSome p t V _ s (le_refl _)

/-! ## Claim theorems -/

/-- C10: the constructor succeeds exactly when the left projection map is
empty: `assert(left_projection_map.size() == 0)` is valid under the
precondition that callers pass an empty left projection map, and every
successfully constructed operator was built from an empty left projection map
(only the right projection map is stored and used). -/
theorem C10_left_projection_assertion (cond_left_types : List LType) (join_type : JoinType)
    (left_projection_map right_projection_map : List Nat) (right_child_types : List LType) :
    (PhysicalHashJoin.mk' cond_left_types join_type left_projection_map right_projection_map
      right_child_types).isSome ↔ left_projection_map = [] := by
  unfold PhysicalHashJoin.mk'
  by_cases h : left_projection_map.length = 0
  · simp [h, List.length_eq_zero.mp h]
  · simp only [if_neg h, Option.isSome_none, Bool.false_eq_true, false_iff]
    exact fun hz => h (by simp [hz])

/-- C6 counterexample: an operator constructed with INNER join type and a
build side contributing no columns has empty `build_types` although INNER is
not one of SEMI, ANTI, MARK — the equivalence `build_types = [] ↔ join type ∈
{SEMI, ANTI, MARK}` fails as stated. -/
theorem C6_counterexample :
    (PhysicalHashJoin.mk' [] JoinType.INNER [] [] []).map PhysicalHashJoin.build_types
        = some [] ∧
      (JoinType.INNER ≠ JoinType.SEMI ∧ JoinType.INNER ≠ JoinType.ANTI ∧
        JoinType.INNER ≠ JoinType.MARK) := by
  decide

/-- C6 (amended): for every successfully constructed operator, join type in
{SEMI, ANTI, MARK} implies `build_types` is empty, and — provided the
projected build-side type list is non-empty (the build side contributes at
least one payload column) — `build_types` is empty exactly when the join type
is SEMI, ANTI or MARK. -/
theorem C6_amended (cond_left_types : List LType) (join_type : JoinType)
    (right_projection_map : List Nat) (right_child_types : List LType)
    (op : PhysicalHashJoin)
    (hc : PhysicalHashJoin.mk' cond_left_types join_type [] right_projection_map
      right_child_types = some op) :
    ((join_type = JoinType.SEMI ∨ join_type = JoinType.ANTI ∨ join_type = JoinType.MARK) →
      op.build_types = []) ∧
    (MapTypes right_child_types right_projection_map ≠ [] →
      (op.build_types = [] ↔
        (join_type = JoinType.SEMI ∨ join_type = JoinType.ANTI ∨
          join_type = JoinType.MARK))) := by
  have hX : op = { join_type := join_type
                   right_projection_map := right_projection_map
                   condition_types := cond_left_types
                   build_types :=
                     if join_type ≠ JoinType.ANTI ∧ join_type ≠ JoinType.SEMI ∧
                        join_type ≠ JoinType.MARK then
                       MapTypes right_child_types right_projection_map
                     else [] } := by
    unfold PhysicalHashJoin.mk' at hc
    simp only [List.length_nil, if_pos, Option.some_inj] at hc
    exact hc.symm
  have hb : op.build_types =
      (if join_type ≠ JoinType.ANTI ∧ join_type ≠ JoinType.SEMI ∧
          join_type ≠ JoinType.MARK then
        MapTypes right_child_types right_projection_map
      else []) := by
    rw [hX]
  constructor
  · intro hj
    rw [hb, if_neg (by rcases hj with h | h | h <;> subst h <;> simp)]
  · intro hne
    constructor
    · intro hz
      by_contra hor
      push_neg at hor
      rw [hb, if_pos ⟨hor.2.1, hor.1, hor.2.2⟩] at hz
      exact hne hz
    · intro hj
      rw [hb, if_neg (by rcases hj with h | h | h <;> subst h <;> simp)]

/-- Witness for C6 (amended): an INNER join over a one-column build side. -/
theorem C6_amended_witness :
    ((JoinType.INNER = JoinType.SEMI ∨ JoinType.INNER = JoinType.ANTI ∨
        JoinType.INNER = JoinType.MARK) →
      PhysicalHashJoin.build_types
        { join_type := JoinType.INNER, right_projection_map := [],
          condition_types := [], build_types := [LType.INTEGER] } = []) ∧
    (MapTypes [LType.INTEGER] [] ≠ [] →
      (PhysicalHashJoin.build_types
          { join_type := JoinType.INNER, right_projection_map := [],
            condition_types := [], build_types := [LType.INTEGER] } = [] ↔
        (JoinType.INNER = JoinType.SEMI ∨ JoinType.INNER = JoinType.ANTI ∨
          JoinType.INNER = JoinType.MARK))) :=
  C6_amended [] JoinType.INNER [] [LType.INTEGER]
    { join_type := JoinType.INNER, right_projection_map := [],
      condition_types := [], build_types := [LType.INTEGER] } rfl

/-- C9 counterexample: an uncorrelated MARK join (no delim columns) with a
single condition satisfies the claim's trigger — the condition count exceeds
the correlation-column count by exactly one — yet no correlated mark-join side
structure is created, because the code additionally requires at least one
correlation column. -/
theorem C9_counterexample :
    (GetGlobalState JoinType.MARK [] 1 []).correlated_info = none ∧
      ([] : List LType).length + 1 = 1 := by
  decide

/-- C9 (amended): the correlated mark-join side structure is created exactly
when the join type is MARK, there is at least one correlation column, and the
condition count exceeds the correlation-column count by exactly one; when
created it is keyed by the correlation column types and holds exactly the
count-star and count aggregates. -/
theorem C9_amended (join_type : JoinType) (delim_types : List LType)
    (num_conditions : Nat) (build_types : List LType) :
    (GetGlobalState join_type delim_types num_conditions build_types).correlated_info.map
        (fun i => (i.correlated_types, i.aggregates)) =
      (if 0 < delim_types.length ∧ join_type = JoinType.MARK ∧
          delim_types.length + 1 = num_conditions then
        some (delim_types, [AggKind.countStar, AggKind.count])
      else none) := by
  simp only [GetGlobalState]
  by_cases h1 : 0 < delim_types.length ∧ join_type = JoinType.MARK
  · by_cases h2 : delim_types.length + 1 = num_conditions
    · rw [if_pos h1, if_pos h2, if_pos ⟨h1.1, h1.2, h2⟩]
      rfl
    · rw [if_pos h1, if_neg h2, if_neg (fun hh => h2 hh.2.2)]
      rfl
  · rw [if_neg h1, if_neg (fun hh => h1 ⟨hh.1, hh.2.1⟩)]
    rfl

/-- C8: for every build-side batch, `Sink` inserts exactly one `(keys,
payload)` pair at the end of the shared hash table and produces nothing else;
the keys are the evaluated right-hand condition expressions with the input's
row count, and the payload is the raw input when no right projection map is
configured, and otherwise the batch referencing the mapped input columns in
map order with the input's cardinality. -/
theorem C8_sink (right_projection_map : List Nat) (build_exprs : List Expression)
    (hash_table : List (DataChunk × DataChunk)) (input : DataChunk) :
    Sink right_projection_map build_exprs hash_table input =
      hash_table ++ [(Execute build_exprs input,
        if right_projection_map = [] then input
        else { data := right_projection_map.map (fun i => input.data.getD i [])
               count := input.count })] ∧
    (Execute build_exprs input).count = input.count ∧
    (Execute build_exprs input).data.length = build_exprs.length := by
  refine ⟨?_, rfl, by simp [Execute]⟩
  unfold Sink
  by_cases h : 0 < right_projection_map.length
  · rw [if_pos h, if_neg (fun hz => by rw [hz] at h; simp at h)]
  · rw [if_neg h, if_pos (List.length_eq_zero.mp (by omega))]

/-- C1: with an empty hash table and INNER or SEMI join type,
`GetChunkInternal` returns an empty batch immediately and leaves the state
untouched — in particular the probe-side child stream is not consumed, and
since the state is unchanged every subsequent call behaves identically. -/
theorem C1_empty_ht_inner_semi (p : ProbeParams) (t V : Nat) (s : JoinExecState)
    (h0 : p.htSize = 0) (hj : p.joinType = JoinType.INNER ∨ p.joinType = JoinType.SEMI) :
    GetChunkInternal p t V s = some ([], s, []) := by
  rw [GetChunkInternal, if_pos ⟨h0, hj⟩]

/-- Witness for C1: an empty-build INNER join with two pending probe batches. -/
theorem C1_empty_ht_inner_semi_witness :
    GetChunkInternal pC1 64 1024 sC1 = some ([], sC1, []) :=
  C1_empty_ht_inner_semi pC1 64 1024 sC1 rfl (Or.inl rfl)

/-- C5: once the probe side yields no more rows (stream exhausted and no
partially consumed probe batch), one `GetChunkInternal` call performs exactly
the end-of-probe handling on the unchanged state: it returns and clears a
non-empty coalescing cache first; only with the cache empty does a full OUTER
join advance the shared unmatched scan cursor by one slice per call, returning
empty once that too is exhausted; any other join type returns empty at once. -/
theorem C5_end_of_probe (p : ProbeParams) (t V : Nat) (s : JoinExecState)
    (h1 : s.probe.childStream = []) (h2 : s.probe.child_chunk = [])
    (hns : ¬(p.htSize = 0 ∧ (p.joinType = JoinType.INNER ∨ p.joinType = JoinType.SEMI))) :
    GetChunkInternal p t V s = some (endOfProbe p s) := by
  obtain ⟨⟨cc, scan, str⟩, cache, hts⟩ := s
  simp only at h1 h2
  subst h1 h2
  rw [GetChunkInternal, if_neg hns]
  have hPC := ProbeHashTable_exhausted p scan
  have hb : probeBound p
      ({ child_chunk := [], scan_structure := scan, childStream := [] } : ProbeState) =
      (slicesOf scan + streamCost p [] + 1) := rfl
  rw [hb]
  simp [GetChunkLoopF, hPC]

/-- Witness for C5: an OUTER join with exhausted probe side, a buffered cache
and one unmatched-scan slice pending. -/
theorem C5_end_of_probe_witness :
    GetChunkInternal pC5 64 1024 sC5 = some (endOfProbe pC5 sC5) :=
  C5_end_of_probe pC5 64 1024 sC5 rfl rfl (by decide)

/-- C4 counterexample: a live scan structure resumed from the previous call
yields the non-empty slice [5]; the claim says it is returned to the caller
unchanged and never cached, but the call returns [7, 5] — the slice was
appended to the cache (holding [7]) as the ghost trace [2] records, and the
caller receives the flushed cache instead of the slice. -/
theorem C4_counterexample :
    (GetChunkInternal pC4 64 1024 sC4).map (fun r => (r.1, r.2.2)) = some ([7, 5], [2]) ∧
      ([7, 5] : Chunk) ≠ [5] := by
  exact ⟨rfl, by decide⟩

/-- C4 (amended): a non-empty slice obtained by resuming a live scan structure
is returned unchanged by the probe subroutine `ProbeHashTable`, with the
cursor advanced; `GetChunkInternal` then applies the ordinary small-batch
coalescing to it like to any other slice (if it has fewer rows than the
threshold it is appended to the cache batch). -/
theorem C4_amended (p : ProbeParams) (ps : ProbeState) (c : Chunk) (ss : ScanStructure)
    (hcc : ps.child_chunk ≠ []) (hss : ps.scan_structure = some (c :: ss)) (hc : c ≠ []) :
    ProbeHashTable p ps = (c, { ps with scan_structure := some ss }) := by
  have h1 : 0 < ps.child_chunk.length := List.length_pos.mpr hcc
  have h2 : 0 < (ScanStructure.Next (c :: ss)).1.length := by
    simpa [ScanStructure.Next] using List.length_pos.mpr hc
  simp only [ProbeHashTable, hss, if_pos h1, if_pos h2]
  simp [ScanStructure.Next]

/-- Witness for C4 (amended): resuming the scan structure of sC4. -/
theorem C4_amended_witness :
    ProbeHashTable pC4 { child_chunk := [9], scan_structure := some [[5]], childStream := [] } =
      ([5], { child_chunk := [9], scan_structure := some [], childStream := [] }) :=
  C4_amended pC4 _ [5] [] (by decide) rfl (by decide)

/-- C7 counterexample: starting from a fresh state, one call returns a full
64-row slice and leaves the scan structure non-null (`some []`) although zero
matches remain unconsumed (`slicesOf` is 0) — the pointer is only cleared on
the next call, when resuming yields an empty slice, so the claimed invariant
fails between these calls. -/
theorem C7_counterexample :
    (GetChunkInternal p7 64 1024 s7).map
        (fun r => (r.1.length, r.2.1.probe.scan_structure)) =
      some (64, some ([] : ScanStructure)) ∧
      slicesOf (some ([] : ScanStructure)) = 0 := by
  exact ⟨rfl, rfl⟩

/-- C7 (amended): the scan structure pointer is reset to null as soon as a
resume yields an empty slice — `ProbeHashTable` then proceeds to the probe
loop with no scan structure; however the pointer may remain non-null after a
call that consumed the final matches, until the next resume discovers the
exhaustion. -/
theorem C7_amended (p : ProbeParams) (ps : ProbeState) (ss : ScanStructure)
    (hcc : ps.child_chunk ≠ []) (hss : ps.scan_structure = some ss)
    (hn : (ScanStructure.Next ss).1 = []) :
    ProbeHashTable p ps = probeLoopGo p none ps.childStream := by
  have h1 : 0 < ps.child_chunk.length := List.length_pos.mpr hcc
  have h2 : ¬0 < (ScanStructure.Next ss).1.length := by simp [hn]
  simp only [ProbeHashTable, hss, if_pos h1, if_neg h2]

/-- Witness for C7 (amended): resuming an exhausted scan structure clears it
before the probe loop runs. -/
theorem C7_amended_witness :
    ProbeHashTable p7 { child_chunk := [1], scan_structure := some [], childStream := [[2]] } =
      probeLoopGo p7 none [[2]] :=
  C7_amended p7 _ [] (by decide) rfl rfl

/-- C2 counterexample: one probe-side batch whose matches arrive as a 1-row
slice followed by a 64-row slice; with threshold 64 the concatenated output of
the run is the 64 rows followed by row 1 (the small slice waits in the cache
while the at-threshold slice is returned immediately), while with threshold 0
(caching disabled) it is row 1 followed by the 64 rows — the relative ordering
of rows within this single probe-side batch's result set depends on the
coalescing threshold, so the claim as stated is false. -/
theorem C2_counterexample :
    (DriveF pC2 64 1024 5 sC2).map (fun r => r.1.flatten) ≠
      (DriveF pC2 0 1024 5 sC2).map (fun r => r.1.flatten) := by
  decide

/-- C2 (amended): for any two completed runs of the operator from the same
state, with any two values of the small-batch threshold (and of the batch
capacity), the concatenations of all returned batches are permutations of each
other — the coalescing cache never changes row multiplicity, only batch
boundaries and the order in which buffered small slices surface relative to
immediately returned large slices. -/
theorem C2_amended (p : ProbeParams) (t1 V1 t2 V2 n1 n2 : Nat) (s : JoinExecState)
    (outs1 outs2 : List Chunk) (e1 e2 : JoinExecState) (tr1 tr2 : List Nat)
    (hW2 : ∀ ch ∈ s.probe.childStream, ch ≠ [])
    (hW3 : ∀ o ∈ s.ht_scan_state, o ≠ [])
    (hW4 : p.htSize = 0 → ∀ cc : Chunk, cc ≠ [] → p.emptyJoinResult cc ≠ [])
    (h1 : DriveF p t1 V1 n1 s = some (outs1, e1, tr1))
    (h2 : DriveF p t2 V2 n2 s = some (outs2, e2, tr2)) :
    outs1.flatten.Perm outs2.flatten := by
  by_cases hns : p.htSize = 0 ∧ (p.joinType = JoinType.INNER ∨ p.joinType = JoinType.SEMI)
  · have hshort : ∀ (t V n : Nat) (outs : List Chunk) (e : JoinExecState) (tr : List Nat),
        DriveF p t V n s = some (outs, e, tr) → outs = [] := by
      intro t V n outs e tr h
      cases n with
      | zero => simp [DriveF] at h
      | succ n =>
        have hcall : GetChunkInternal p t V s = some ([], s, []) := by
          rw [GetChunkInternal, if_pos hns]
        simp only [DriveF, hcall, List.length_nil, if_pos, Option.some_inj,
          Prod.mk.injEq] at h
        exact h.1.symm
    rw [hshort t1 V1 n1 outs1 e1 tr1 h1, hshort t2 V2 n2 outs2 e2 tr2 h2]
  · have q1 := driveF_coalesce p t1 V1 hW4 hns n1 s outs1 e1 tr1 hW2 hW3 h1
    have q2 := driveF_coalesce p t2 V2 hW4 hns n2 s outs2 e2 tr2 hW2 hW3 h2
    rw [q1, q2]
    simp only [List.flatten_append]
    have p1 := coalesce_flatten_perm t1 V1 (rawSlices p s.probe) s.cached_chunk
    have p2 := coalesce_flatten_perm t2 V2 (rawSlices p s.probe) s.cached_chunk
    exact (p1.append_right _).trans ((p2.append_right _).symm)

/-- Witness for C2 (amended): the two runs of the counterexample instance
deliver the same rows up to permutation. -/
theorem C2_amended_witness :
    (List.flatten [List.replicate 64 2, [1]]).Perm
      (List.flatten [[1], List.replicate 64 2]) :=
  C2_amended pC2 64 1024 0 1024 5 5 sC2 _ _ _ _ _ _
    (by decide) (by decide) (fun h => absurd h (by decide)) rfl rfl

/-- C3: with the source constants (threshold 64, `STANDARD_VECTOR_SIZE` 1024),
any completed run of the operator returns exactly the batches prescribed by
the coalescing policy `coalesce` applied to the raw probe slice stream — every
non-empty slice below 64 rows is appended to the cache and probing continues,
the cache is returned exactly when it reaches 1024 - 64 rows or when the probe
side is exhausted, and a slice of at least 64 rows is returned immediately —
followed by the full-outer slices; consequently (given the between-calls cache
invariant, which is preserved) the cache's row count, recorded by the ghost
trace right after every append, never exceeds the batch capacity 1024. -/
theorem C3_coalescing (p : ProbeParams) (n : Nat) (s : JoinExecState)
    (outs : List Chunk) (sEnd : JoinExecState) (tr : List Nat)
    (hW2 : ∀ ch ∈ s.probe.childStream, ch ≠ [])
    (hW3 : ∀ o ∈ s.ht_scan_state, o ≠ [])
    (hW4 : p.htSize = 0 → ∀ cc : Chunk, cc ≠ [] → p.emptyJoinResult cc ≠ [])
    (hns : ¬(p.htSize = 0 ∧ (p.joinType = JoinType.INNER ∨ p.joinType = JoinType.SEMI)))
    (hinv : s.cached_chunk.length < 1024 - 64)
    (h : DriveF p 64 1024 n s = some (outs, sEnd, tr)) :
    outs = coalesce 64 1024 s.cached_chunk (rawSlices p s.probe) ++ outerPart p s ∧
      (∀ x ∈ tr, x ≤ 1024) ∧ sEnd.cached_chunk.length < 1024 - 64 := by
  have hc := driveF_coalesce p 64 1024 hW4 hns n s outs sEnd tr hW2 hW3 h
  have hi := driveF_inv p 64 1024 n s outs sEnd tr hinv h
  exact ⟨hc, fun x hx => le_of_lt (hi.1 x hx), hi.2⟩

/-- Witness for C3 at the concrete instance pC2/sC2: the run returns the
64-row slice immediately, then the flushed cache [1]; the single append left
1 row in the cache, below the capacity. -/
theorem C3_coalescing_witness :
    ([List.replicate 64 2, [1]] =
        coalesce 64 1024 [] (rawSlices pC2 sC2.probe) ++ outerPart pC2 sC2) ∧
      (∀ x ∈ [1], x ≤ 1024) ∧ (0 : Nat) < 1024 - 64 :=
  C3_coalescing pC2 5 sC2 _ _ _ (by decide) (by decide)
    (fun h => absurd h (by decide)) (by decide) (by decide) rfl
